import Mathlib

/-!
Verification of the raster enhancement pipeline in `src/utils/imageProcessor.ts`.

Modelling conventions (shallow embedding):
* A raster image is a width, a height, and a total buffer function `ℕ → ℝ`
  giving the channel samples in RGBA order (`index = (y*width + x)*4 + c`).
  The source stores samples in `Uint8ClampedArray`s; the 8-bit store
  quantization is abstracted away and samples are kept as exact reals, so
  every arithmetic operation visible in the source (including the explicit
  `Math.min(255, Math.max(0, _))` clamps) is modelled exactly.
* JavaScript float arithmetic is modelled by exact real arithmetic
  (`Real.exp`, `Real.tanh`, `Real.rpow` for `Math.exp`, `Math.tanh`,
  `Math.pow`).
* Settings fields are rationals (the UI supplies integers); they are cast to
  `ℝ` where the source feeds them into filter formulas.
-/

namespace ImageProcessor

/-- A decoded raster: `width`, `height`, and the RGBA sample buffer.
The buffer is total; indices at or beyond `width*height*4` are junk that
every filter leaves untouched (mirroring the fixed-length typed arrays). -/
structure Image where
  width : ℕ
  height : ℕ
  data : ℕ → ℝ

/-- Length in samples of the buffer backing an image (`ImageData` invariant:
`data.length = width * height * 4`). -/
def Image.byteLength (img : Image) : ℕ := img.width * img.height * 4

/-- The `ProcessingSettings` interface of the source (field `useAI` is what
the spec calls `aiEnhance`). -/
structure ProcessingSettings where
  sharpening : ℚ
  denoising : ℚ
  brightness : ℚ
  contrast : ℚ
  saturation : ℚ
  useAI : Bool

/-- `n | 1` of the source for a non-negative integer: the least odd number
that is `≥ n` ("ensure odd size"). -/
def nextOdd (n : ℕ) : ℕ := if n % 2 = 0 then n + 1 else n

/-- Kernel size from `generateGaussianKernel`:
`size = Math.max(3, Math.ceil(radius * 6) | 1)`. -/
noncomputable def gaussianKernelSize (radius : ℝ) : ℕ :=
  max 3 (nextOdd (Int.toNat ⌈radius * 6⌉))

/-- Unnormalized weight `kernel[i] = Math.exp(-(x*x) / twoSigmaSquare)` with
`x = i - center`, `sigma = radius / 3`, `twoSigmaSquare = 2*sigma*sigma`,
`center = Math.floor(size / 2)`. -/
noncomputable def gaussianRawWeight (radius : ℝ) (i : ℕ) : ℝ :=
  let sigma := radius / 3
  let center : ℕ := gaussianKernelSize radius / 2
  let x : ℝ := (i : ℝ) - (center : ℝ)
  Real.exp (-(x * x) / (2 * sigma * sigma))

/-- The running `sum` accumulated over the first loop of
`generateGaussianKernel`. -/
noncomputable def gaussianKernelSum (radius : ℝ) : ℝ :=
  ∑ i ∈ Finset.range (gaussianKernelSize radius), gaussianRawWeight radius i

/-- `generateGaussianKernel(radius)`: raw Gaussian weights normalized by
their sum. -/
noncomputable def generateGaussianKernel (radius : ℝ) : List ℝ :=
  List.ofFn fun i : Fin (gaussianKernelSize radius) =>
    gaussianRawWeight radius i / gaussianKernelSum radius

lemma nextOdd_odd (n : ℕ) : Odd (nextOdd n) := by
  unfold nextOdd
  rcases Nat.even_or_odd n with h | h
  · rw [if_pos (Nat.even_iff.mp h)]
    exact Even.add_one h
  · rw [if_neg (by simpa [Nat.odd_iff] using h)]
    exact h

lemma gaussianKernelSize_odd (radius : ℝ) : Odd (gaussianKernelSize radius) := by
  unfold gaussianKernelSize
  rcases le_total (nextOdd (Int.toNat ⌈radius * 6⌉)) 3 with h | h
  · rw [max_eq_left h]; exact ⟨1, by ring⟩
  · rw [max_eq_right h]; exact nextOdd_odd _

lemma gaussianKernelSize_pos (radius : ℝ) : 0 < gaussianKernelSize radius :=
  lt_of_lt_of_le (by norm_num) (le_max_left 3 _)

lemma gaussianRawWeight_pos (radius : ℝ) (i : ℕ) : 0 < gaussianRawWeight radius i :=
  Real.exp_pos _

lemma gaussianKernelSum_pos (radius : ℝ) : 0 < gaussianKernelSum radius := by
  apply Finset.sum_pos (fun i _ => gaussianRawWeight_pos radius i)
  exact Finset.nonempty_range_iff.mpr (Nat.pos_iff_ne_zero.mp (gaussianKernelSize_pos radius))

lemma generateGaussianKernel_length (radius : ℝ) :
    (generateGaussianKernel radius).length = gaussianKernelSize radius := by
  simp [generateGaussianKernel]

lemma generateGaussianKernel_getD (radius : ℝ) (i : ℕ)
    (h : i < gaussianKernelSize radius) :
    (generateGaussianKernel radius).getD i 0 =
      gaussianRawWeight radius i / gaussianKernelSum radius := by
  rw [List.getD_eq_getElem _ _ (by simpa [generateGaussianKernel_length] using h)]
  simp [generateGaussianKernel]

/-- Symmetry of the raw weights around the center index. -/
lemma gaussianRawWeight_symm (radius : ℝ) (i : ℕ)
    (h : i < gaussianKernelSize radius) :
    gaussianRawWeight radius i =
      gaussianRawWeight radius (gaussianKernelSize radius - 1 - i) := by
  obtain ⟨k, hk⟩ := gaussianKernelSize_odd radius
  unfold gaussianRawWeight
  have hcenter : gaussianKernelSize radius / 2 = k := by omega
  have hik : i ≤ 2 * k := by omega
  have hsub : gaussianKernelSize radius - 1 - i = 2 * k - i := by omega
  rw [hcenter, hsub]
  have hcast : ((2 * k - i : ℕ) : ℝ) = 2 * (k : ℝ) - (i : ℝ) := by
    push_cast [Nat.cast_sub hik]; ring
  simp only [hcast]
  congr 1
  ring

/-- Claim C2: for every radius > 0, the generated Gaussian kernel has odd
length equal to `max(3, next-odd(ceil(radius*6)))`, all weights
non-negative, weights summing to 1 within `1e-9`, and is symmetric:
`weight[i] = weight[size-1-i]` for every index `i`. -/
theorem generateGaussianKernel_spec (radius : ℝ) (hr : 0 < radius) :
    (generateGaussianKernel radius).length =
        max 3 (nextOdd (Int.toNat ⌈radius * 6⌉)) ∧
    Odd (generateGaussianKernel radius).length ∧
    (∀ i, 0 ≤ (generateGaussianKernel radius).getD i 0) ∧
    |(generateGaussianKernel radius).sum - 1| ≤ 1e-9 ∧
    (∀ i < (generateGaussianKernel radius).length,
      (generateGaussianKernel radius).getD i 0 =
        (generateGaussianKernel radius).getD
          ((generateGaussianKernel radius).length - 1 - i) 0) := by
  refine ⟨generateGaussianKernel_length radius, ?_, ?_, ?_, ?_⟩
  · rw [generateGaussianKernel_length]; exact gaussianKernelSize_odd radius
  · intro i
    rcases lt_or_le i (gaussianKernelSize radius) with h | h
    · rw [generateGaussianKernel_getD radius i h]
      exact le_of_lt (div_pos (gaussianRawWeight_pos radius i)
        (gaussianKernelSum_pos radius))
    · rw [List.getD_eq_default _ _ (by simpa [generateGaussianKernel_length] using h)]
  · have hsum : (generateGaussianKernel radius).sum = 1 := by
      unfold generateGaussianKernel
      rw [List.sum_ofFn]
      rw [← Finset.sum_div]
      rw [Fin.sum_univ_eq_sum_range]
      exact div_self (ne_of_gt (gaussianKernelSum_pos radius))
    rw [hsum]
    norm_num
  · intro i hi
    rw [generateGaussianKernel_length] at hi
    have hi' : gaussianKernelSize radius - 1 - i < gaussianKernelSize radius := by omega
    rw [generateGaussianKernel_getD radius i hi, generateGaussianKernel_length,
      generateGaussianKernel_getD radius _ hi']
    rw [gaussianRawWeight_symm radius i hi]

/-- Witness for C2 at `radius = 1`. -/
theorem generateGaussianKernel_spec_witness :
    (0 : ℝ) < 1 ∧ Odd (generateGaussianKernel 1).length :=
  ⟨by norm_num, (generateGaussianKernel_spec 1 (by norm_num)).2.1⟩

/-- `gaussianBlur`: separable two-pass convolution. Out-of-range taps are
skipped and the local weight sum renormalizes; alpha is copied through both
passes (so at alpha indices and out-of-range indices the buffer is the
unmodified input, matching the `Uint8ClampedArray` copies in the source). -/
noncomputable def gaussianBlur (img : Image) (width height : ℕ) (radius : ℝ) :
    Image :=
  let kernel := generateGaussianKernel radius
  let kernelSize := kernel.length
  let halfKernel := kernelSize / 2
  let horiz : ℕ → ℝ := fun idx =>
    if idx < width * height * 4 ∧ idx % 4 < 3 then
      let c := idx % 4
      let p := idx / 4
      let x := p % width
      let y := p / width
      let sum := ∑ k ∈ Finset.range kernelSize,
        if 0 ≤ (x : ℤ) + k - halfKernel ∧ (x : ℤ) + k - halfKernel < width then
          img.data ((y * width + ((x : ℤ) + k - halfKernel).toNat) * 4 + c) *
            kernel.getD k 0
        else 0
      let weightSum := ∑ k ∈ Finset.range kernelSize,
        if 0 ≤ (x : ℤ) + k - halfKernel ∧ (x : ℤ) + k - halfKernel < width then
          kernel.getD k 0
        else 0
      sum / weightSum
    else img.data idx
  { width := width, height := height, data := fun idx =>
      if idx < width * height * 4 ∧ idx % 4 < 3 then
        let c := idx % 4
        let p := idx / 4
        let x := p % width
        let y := p / width
        let sum := ∑ k ∈ Finset.range kernelSize,
          if 0 ≤ (y : ℤ) + k - halfKernel ∧ (y : ℤ) + k - halfKernel < height then
            horiz ((((y : ℤ) + k - halfKernel).toNat * width + x) * 4 + c) *
              kernel.getD k 0
          else 0
        let weightSum := ∑ k ∈ Finset.range kernelSize,
          if 0 ≤ (y : ℤ) + k - halfKernel ∧ (y : ℤ) + k - halfKernel < height then
            kernel.getD k 0
          else 0
        sum / weightSum
      else horiz idx }

/-- `applyUnsharpMask`: per RGB sample, add back `amount` times the
high-frequency residual when it exceeds `threshold`; alpha copied. -/
noncomputable def applyUnsharpMask (img : Image) (width height : ℕ)
    (amount radius threshold : ℝ) : Image :=
  let blurred := gaussianBlur img width height radius
  { width := width, height := height, data := fun idx =>
      if idx < width * height * 4 ∧ idx % 4 < 3 then
        let original := img.data idx
        let diff := original - blurred.data idx
        if |diff| > threshold then min 255 (max 0 (original + diff * amount))
        else original
      else img.data idx }

/-- `applySCurve(value, strength)`. -/
noncomputable def applySCurve (value strength : ℝ) : ℝ :=
  if strength = 0 then value
  else
    let factor := strength * 2
    if factor > 0 then
      0.5 + Real.tanh (factor * (value - 0.5)) / (2 * Real.tanh (factor / 2))
    else 0.5 + (value - 0.5) / (1 + |factor|)

/-- The per-sample transform of `applyAdvancedToneMapping`: normalize,
S-curve contrast, gamma-style brightness `pow(contrasted, 1 + b/100) * 255`,
clamp to `[0, 255]`. -/
noncomputable def toneMapSample (brightness contrast value : ℝ) : ℝ :=
  let normalized := value / 255
  let contrasted := applySCurve normalized (contrast / 100)
  let brightened := contrasted ^ (1 + brightness / 100) * 255
  min 255 (max 0 brightened)

/-- `applyAdvancedToneMapping`: applies `toneMapSample` to every RGB sample
in place. The luminance histogram/CDF the source computes first never feeds
into any output sample (spec §9 flags it as vestigial), so it is not part of
the buffer transform. -/
noncomputable def applyAdvancedToneMapping (img : Image)
    (brightness contrast : ℝ) : Image :=
  { img with data := fun idx =>
      if idx < img.width * img.height * 4 ∧ idx % 4 < 3 then
        toneMapSample brightness contrast (img.data idx)
      else img.data idx }

/-- JavaScript's `%` on reals (`a - b * trunc(a/b)`); for the non-negative
operands it is used on here (`(h*6) % 2` with `h ∈ [0,1)`) this equals the
floor form below. -/
noncomputable def jsFmod (a b : ℝ) : ℝ := a - b * (⌊a / b⌋ : ℝ)

/-- Lightness `l = (max + min) / 2` of `applyAdvancedSaturation`. -/
noncomputable def hslL (r g b : ℝ) : ℝ :=
  (max r (max g b) + min r (min g b)) / 2

/-- Source saturation `s = l > 0.5 ? diff / (2 - sum) : diff / sum`. -/
noncomputable def hslS (r g b : ℝ) : ℝ :=
  let diff := max r (max g b) - min r (min g b)
  let sum := max r (max g b) + min r (min g b)
  if hslL r g b > 0.5 then diff / (2 - sum) else diff / sum

/-- Source hue (already divided by 6), via the `max === r / g / b` if-chain;
the final `else` is the `max === b` case, which holds whenever the first two
comparisons fail. -/
noncomputable def hslH (r g b : ℝ) : ℝ :=
  let maxv := max r (max g b)
  let diff := maxv - min r (min g b)
  if maxv = r then ((g - b) / diff + (if g < b then (6 : ℝ) else 0)) / 6
  else if maxv = g then ((b - r) / diff + 2) / 6
  else ((r - g) / diff + 4) / 6

/-- The 6-sector `switch (hSector)` of the HSL→RGB reconstruction; the
unreachable default leaves `(0, 0, 0)` as in the source. -/
def sectorRGB (hSector : ℤ) (c x : ℝ) : ℝ × ℝ × ℝ :=
  if hSector = 0 then (c, x, 0)
  else if hSector = 1 then (x, c, 0)
  else if hSector = 2 then (0, c, x)
  else if hSector = 3 then (0, x, c)
  else if hSector = 4 then (x, 0, c)
  else if hSector = 5 then (c, 0, x)
  else (0, 0, 0)

/-- The non-grayscale body of `applyAdvancedSaturation`'s pixel loop:
saturate `s` by `factor` (clamped to `[0,1]`) and rebuild RGB (still
normalized to `[0,1]`, before the `* 255` and clamp). -/
noncomputable def saturatePixel (factor r g b : ℝ) : ℝ × ℝ × ℝ :=
  let s := hslS r g b
  let h := hslH r g b
  let l := hslL r g b
  let newS := min 1 (max 0 (s * factor))
  let c := (1 - |2 * l - 1|) * newS
  let x := c * (1 - |jsFmod (h * 6) 2 - 1|)
  let m := l - c / 2
  let t := sectorRGB ⌊h * 6⌋ c x
  (t.1 + m, t.2.1 + m, t.2.2 + m)

/-- `applyAdvancedSaturation(imageData, saturation)`: per pixel, HSL
round-trip with saturation scaled by `factor = (saturation + 100) / 100`;
achromatic pixels (`diff === 0`) are skipped (`continue`), others are
written back clamped to `[0, 255]`. -/
noncomputable def applyAdvancedSaturation (img : Image) (saturation : ℝ) :
    Image :=
  let factor := (saturation + 100) / 100
  { img with data := fun idx =>
      if idx < img.width * img.height * 4 ∧ idx % 4 < 3 then
        let p := idx / 4
        let r := img.data (4 * p) / 255
        let g := img.data (4 * p + 1) / 255
        let b := img.data (4 * p + 2) / 255
        if max r (max g b) - min r (min g b) = 0 then img.data idx
        else
          let t := saturatePixel factor r g b
          let v := if idx % 4 = 0 then t.1 else if idx % 4 = 1 then t.2.1
                   else t.2.2
          min 255 (max 0 (v * 255))
      else img.data idx }

/-- `applyBilateralFilter`: edge-preserving smoothing. Pixels with any
coordinate within `radius = ceil(spatialSigma * 2)` of a border keep their
input samples (the output buffer starts as a copy); interior RGB samples
become the bilateral-weighted average of the `(2*radius+1)²` neighborhood;
interior alpha is copied from the input. -/
noncomputable def applyBilateralFilter (img : Image) (width height : ℕ)
    (spatialSigma intensitySigma : ℝ) : Image :=
  let radius : ℕ := (⌈spatialSigma * 2⌉).toNat
  { width := width, height := height, data := fun idx =>
      let c := idx % 4
      let p := idx / 4
      let x := p % width
      let y := p / width
      if c < 3 ∧ radius ≤ x ∧ (x : ℤ) + radius < width ∧ radius ≤ y ∧
          (y : ℤ) + radius < height then
        let centerValue := img.data idx
        let nbr : ℤ × ℤ → ℝ := fun d =>
          img.data (((((y : ℤ) + d.2).toNat * width +
            ((x : ℤ) + d.1).toNat) * 4 + c))
        let weight : ℤ × ℤ → ℝ := fun d =>
          Real.exp (-((d.1 * d.1 + d.2 * d.2 : ℤ) : ℝ) /
              (2 * spatialSigma * spatialSigma)) *
            Real.exp (-(|centerValue - nbr d| * |centerValue - nbr d|) /
              (2 * intensitySigma * intensitySigma))
        let sum := ∑ dy ∈ Finset.Icc (-(radius : ℤ)) radius,
          ∑ dx ∈ Finset.Icc (-(radius : ℤ)) radius,
            nbr (dx, dy) * weight (dx, dy)
        let weightSum := ∑ dy ∈ Finset.Icc (-(radius : ℤ)) radius,
          ∑ dx ∈ Finset.Icc (-(radius : ℤ)) radius, weight (dx, dy)
        if weightSum > 0 then sum / weightSum else centerValue
      else img.data idx }

/-- `Math.round(0.299*R + 0.587*G + 0.114*B)` used for histogram binning. -/
noncomputable def lumBin (img : Image) (width : ℕ) (x y : ℕ) : ℕ :=
  (round (0.299 * img.data ((y * width + x) * 4) +
    0.587 * img.data ((y * width + x) * 4 + 1) +
    0.114 * img.data ((y * width + x) * 4 + 2))).toNat

/-- The pixels of one CLAHE tile `[bx, ex) × [byv, ey)`. -/
def tileFinset (bx byv ex ey : ℕ) : Finset (ℕ × ℕ) :=
  Finset.Ico bx ex ×ˢ Finset.Ico byv ey

/-- Per-tile 256-bin luminance histogram of `applyCLAHE`. -/
noncomputable def tileHistogram (img : Image) (width : ℕ)
    (bx byv ex ey : ℕ) (i : ℕ) : ℕ :=
  ((tileFinset bx byv ex ey).filter fun q => lumBin img width q.1 q.2 = i).card

/-- `pixelCount` of a tile. -/
def tilePixelCount (bx byv ex ey : ℕ) : ℕ := (ex - bx) * (ey - byv)

/-- `clipValue = (clipLimit * pixelCount) / 256` with `clipLimit = 3.0`. -/
noncomputable def tileClipValue (bx byv ex ey : ℕ) : ℝ :=
  3 * (tilePixelCount bx byv ex ey : ℝ) / 256

/-- Histogram after the contrast-limiting pass: bins above `clipValue` are
capped at it. -/
noncomputable def clippedHist (img : Image) (width : ℕ)
    (bx byv ex ey : ℕ) (i : ℕ) : ℝ :=
  min (tileHistogram img width bx byv ex ey i : ℝ) (tileClipValue bx byv ex ey)

/-- Total `excess` removed by the clipping pass. -/
noncomputable def tileExcess (img : Image) (width : ℕ)
    (bx byv ex ey : ℕ) : ℝ :=
  ∑ i ∈ Finset.range 256,
    ((tileHistogram img width bx byv ex ey i : ℝ) -
      clippedHist img width bx byv ex ey i)

/-- Histogram after redistributing `excess / 256` uniformly to every bin. -/
noncomputable def redistHist (img : Image) (width : ℕ)
    (bx byv ex ey : ℕ) (i : ℕ) : ℝ :=
  clippedHist img width bx byv ex ey i + tileExcess img width bx byv ex ey / 256

/-- Cumulative distribution `cdf[k]` over the redistributed histogram. -/
noncomputable def tileCdf (img : Image) (width : ℕ)
    (bx byv ex ey : ℕ) (k : ℕ) : ℝ :=
  ∑ i ∈ Finset.range (k + 1), redistHist img width bx byv ex ey i

/-- `applyCLAHE`: tiled (64×64, partial at edges) clip-limited histogram
equalization, remapping each RGB sample `v` to
`clamp(cdf[v] / pixelCount * 255, 0, 255)` in place. The stored 8-bit sample
used as the `cdf` index is recovered from the real-valued model by rounding
(the source reads it from a `Uint8ClampedArray`, where it is an integer in
`[0, 255]`; the `min 255` is a defensive no-op under that invariant). -/
noncomputable def applyCLAHE (img : Image) (width height : ℕ) : Image :=
  { img with data := fun idx =>
      if idx < width * height * 4 ∧ idx % 4 < 3 then
        let p := idx / 4
        let x := p % width
        let y := p / width
        let bx := 64 * (x / 64)
        let byv := 64 * (y / 64)
        let ex := min (bx + 64) width
        let ey := min (byv + 64) height
        let v := min 255 (round (img.data idx)).toNat
        (min 255 (max 0 (tileCdf img width bx byv ex ey v /
          (tilePixelCount bx byv ex ey : ℝ) * 255)))
      else img.data idx }

/-- `enhanceDetails`: add back `0.8` times the high-pass residual against a
radius-2 Gaussian blur, clamped, per RGB sample, in place. -/
noncomputable def enhanceDetails (img : Image) (width height : ℕ) : Image :=
  let blurred := gaussianBlur img width height 2
  { img with data := fun idx =>
      if idx < width * height * 4 ∧ idx % 4 < 3 then
        let detail := img.data idx - blurred.data idx
        (min 255 (max 0 (img.data idx + detail * 0.8)))
      else img.data idx }

/-- The per-pixel body of `enhanceColors` on normalized channels:
per-channel gamma/gain, then separation stretch by `1.15` when
`max > min`. -/
noncomputable def enhanceColorsPixel (r g b : ℝ) : ℝ × ℝ × ℝ :=
  let r1 := r ^ (0.9 : ℝ) * 1.05
  let g1 := g ^ (0.95 : ℝ) * 1.02
  let b1 := b ^ (1.1 : ℝ) * 0.98
  let mx := max r1 (max g1 b1)
  let mn := min r1 (min g1 b1)
  if mx > mn then
    (mn + (r1 - mn) * 1.15, mn + (g1 - mn) * 1.15, mn + (b1 - mn) * 1.15)
  else (r1, g1, b1)

/-- `enhanceColors`: color temperature adjustment plus separation stretch,
clamped to `[0, 255]`, per RGB sample, in place. -/
noncomputable def enhanceColors (img : Image) : Image :=
  { img with data := fun idx =>
      if idx < img.width * img.height * 4 ∧ idx % 4 < 3 then
        let p := idx / 4
        let t := enhanceColorsPixel (img.data (4 * p) / 255)
          (img.data (4 * p + 1) / 255) (img.data (4 * p + 2) / 255)
        let v := if idx % 4 = 0 then t.1 else if idx % 4 = 1 then t.2.1
                 else t.2.2
        (min 255 (max 0 (v * 255)))
      else img.data idx }

/-- `applyAdvancedAIEnhancement`: bilateral(3, 25) → CLAHE → detail
enhancement → color enhancement. -/
noncomputable def applyAdvancedAIEnhancement (img : Image)
    (width height : ℕ) : Image :=
  let e1 := applyBilateralFilter img width height 3 25
  let e2 := applyCLAHE e1 width height
  let e3 := enhanceDetails e2 width height
  enhanceColors e3

/-- The cubic convolution weight of `bicubicInterpolate` with `a = -0.5`. -/
noncomputable def cubicWeight (t : ℝ) : ℝ :=
  let a : ℝ := -0.5
  if |t| ≤ 1 then (a + 2) * |t| * |t| * |t| - (a + 3) * |t| * |t| + 1
  else if |t| ≤ 2 then
    a * |t| * |t| * |t| - 5 * a * |t| * |t| + 8 * a * |t| - 4 * a
  else 0

/-- `getValue` of `bicubicInterpolate`: sample with coordinates clamped to
the image bounds. -/
noncomputable def getValueClamped (data : ℕ → ℝ) (width height : ℕ)
    (px py : ℤ) (channel : ℕ) : ℝ :=
  let px' := min ((width : ℤ) - 1) (max 0 px)
  let py' := min ((height : ℤ) - 1) (max 0 py)
  data ((py'.toNat * width + px'.toNat) * 4 + channel)

/-- `bicubicInterpolate`: 4×4 cubic convolution around `(x, y)`. -/
noncomputable def bicubicInterpolate (data : ℕ → ℝ) (width height : ℕ)
    (x y : ℝ) (channel : ℕ) : ℝ :=
  let x1 := ⌊x⌋
  let y1 := ⌊y⌋
  let dx := x - (x1 : ℝ)
  let dy := y - (y1 : ℝ)
  ∑ m ∈ Finset.Icc (-1 : ℤ) 2, ∑ n ∈ Finset.Icc (-1 : ℤ) 2,
    getValueClamped data width height (x1 + n) (y1 + m) channel *
      (cubicWeight (dx - (n : ℝ)) * cubicWeight (dy - (m : ℝ)))

/-- `bicubicUpscale`: destination dims `round(src * scaleFactor)`, each
destination sample interpolated at `(x / scaleFactor, y / scaleFactor)` and
clamped; the fresh destination buffer is zero elsewhere. -/
noncomputable def bicubicUpscale (img : Image) (scaleFactor : ℝ) : Image :=
  let dstWidth := (round ((img.width : ℝ) * scaleFactor)).toNat
  let dstHeight := (round ((img.height : ℝ) * scaleFactor)).toNat
  { width := dstWidth, height := dstHeight, data := fun idx =>
      if idx < dstWidth * dstHeight * 4 then
        let c := idx % 4
        let p := idx / 4
        let x := p % dstWidth
        let y := p / dstWidth
        min 255 (max 0 (bicubicInterpolate img.data img.width img.height
          ((x : ℝ) / scaleFactor) ((y : ℝ) / scaleFactor) c))
      else 0 }

/-- `processImageRealtime` canvas scale:
`Math.min(maxSize / img.width, maxSize / img.height, 1)` with
`maxSize = 800`. -/
noncomputable def realtimeScale (w h : ℕ) : ℝ :=
  min (800 / (w : ℝ)) (min (800 / (h : ℝ)) 1)

/-- Preview-mode canvas dimensions `(Math.floor(w*scale), Math.floor(h*scale))`. -/
noncomputable def realtimeDims (w h : ℕ) : ℕ × ℕ :=
  ((⌊(w : ℝ) * realtimeScale w h⌋).toNat, (⌊(h : ℝ) * realtimeScale w h⌋).toNat)

/-- `processImage` canvas scale: `Math.min(2, 1500 / Math.max(w, h))` when
the source area is below one megapixel, else 1. -/
noncomputable def finalScale (w h : ℕ) : ℝ :=
  if w * h < 1000000 then min 2 (1500 / (max w h : ℝ)) else 1

/-- Final-mode canvas dimensions `(Math.floor(w*scale), Math.floor(h*scale))`. -/
noncomputable def finalDims (w h : ℕ) : ℕ × ℕ :=
  ((⌊(w : ℝ) * finalScale w h⌋).toNat, (⌊(h : ℝ) * finalScale w h⌋).toNat)

/-- The filter chain of `processImageRealtime`, acting on the raster read
back from the (already scaled) canvas: bilateral if `denoising > 0`, tone
map if `brightness ≠ 0` or `contrast ≠ 0`, saturate if `saturation ≠ 0`,
unsharp (threshold 3) if `sharpening > 0`, then the AI chain if `useAI`. -/
noncomputable def realtimeChain (s : ProcessingSettings) (img : Image) :
    Image :=
  let width := img.width
  let height := img.height
  let img1 := if 0 < s.denoising then
      applyBilateralFilter img width height
        (2 + ((s.denoising : ℝ) / 100) * 3) (15 + ((s.denoising : ℝ) / 100) * 35)
    else img
  let img2 := if s.brightness ≠ 0 ∨ s.contrast ≠ 0 then
      applyAdvancedToneMapping img1 (s.brightness : ℝ) (s.contrast : ℝ)
    else img1
  let img3 := if s.saturation ≠ 0 then
      applyAdvancedSaturation img2 (s.saturation : ℝ)
    else img2
  let img4 := if 0 < s.sharpening then
      applyUnsharpMask img3 width height
        (0.5 + ((s.sharpening : ℝ) / 100) * 2) (1 + ((s.sharpening : ℝ) / 100) * 1.5) 3
    else img3
  if s.useAI then applyAdvancedAIEnhancement img4 width height else img4

/-- The filter chain of `processImage` (final quality), acting on the
raster read back from the (already scaled) canvas: bilateral, AI chain,
tone map, saturate, unsharp (threshold 2), each gated on its setting. -/
noncomputable def finalChain (s : ProcessingSettings) (img : Image) : Image :=
  let width := img.width
  let height := img.height
  let img1 := if 0 < s.denoising then
      applyBilateralFilter img width height
        (3 + ((s.denoising : ℝ) / 100) * 4) (20 + ((s.denoising : ℝ) / 100) * 50)
    else img
  let img2 := if s.useAI then applyAdvancedAIEnhancement img1 width height
    else img1
  let img3 := if s.brightness ≠ 0 ∨ s.contrast ≠ 0 then
      applyAdvancedToneMapping img2 (s.brightness : ℝ) (s.contrast : ℝ)
    else img2
  let img4 := if s.saturation ≠ 0 then
      applyAdvancedSaturation img3 (s.saturation : ℝ)
    else img3
  if 0 < s.sharpening then
    applyUnsharpMask img4 width height
      (1 + ((s.sharpening : ℝ) / 100) * 3) (1.2 + ((s.sharpening : ℝ) / 100) * 2) 2
  else img4

/-- The exact sequence of values `processImage` passes to `onProgress`:
10 after the canvas draw, then 25/50/65/80/95 after each active stage
(bilateral, AI chain, tone map, saturation, unsharp, in source order), then
100 after `putImageData`. -/
def progressList (s : ProcessingSettings) : List ℕ :=
  [10] ++ (if 0 < s.denoising then [25] else [])
       ++ (if s.useAI then [50] else [])
       ++ (if s.brightness ≠ 0 ∨ s.contrast ≠ 0 then [65] else [])
       ++ (if s.saturation ≠ 0 then [80] else [])
       ++ (if 0 < s.sharpening then [95] else [])
       ++ [100]

/-- Claim C7: in final (full-quality) mode, for every settings record, the
progress values reported to the callback are 10 first, then 25 (iff
denoising>0), 50 (iff aiEnhance), 65 (iff brightness≠0 or contrast≠0), 80
(iff saturation≠0), 95 (iff sharpening>0) in that (sorted) order, then 100
last; the sequence is non-decreasing and on success always ends at 100. -/
theorem processImage_progress_spec (s : ProcessingSettings) :
    (progressList s).head? = some 10 ∧
    (progressList s).getLast? = some 100 ∧
    List.Sorted (· ≤ ·) (progressList s) ∧
    (25 ∈ progressList s ↔ 0 < s.denoising) ∧
    (50 ∈ progressList s ↔ s.useAI = true) ∧
    (65 ∈ progressList s ↔ (s.brightness ≠ 0 ∨ s.contrast ≠ 0)) ∧
    (80 ∈ progressList s ↔ s.saturation ≠ 0) ∧
    (95 ∈ progressList s ↔ 0 < s.sharpening) := by
  unfold progressList
  split_ifs <;>
    refine ⟨by decide, by decide, by decide, ?_, ?_, ?_, ?_, ?_⟩ <;>
    simp_all

/-- The all-inactive settings record of the C3 end-to-end test
(`aiEnhance` is the source's `useAI`). -/
def zeroSettings : ProcessingSettings := ⟨0, 0, 0, 0, 0, false⟩

/-- The settings record of the C1 end-to-end test: brightness 50, all other
stages inactive. -/
def brightSettings : ProcessingSettings := ⟨0, 0, 50, 0, 0, false⟩

/-- A w×h uniform opaque image with every RGB sample 128 and alpha 255. -/
def grayImage (w h : ℕ) : Image :=
  ⟨w, h, fun i => if i % 4 = 3 then 255 else 128⟩

lemma finalDims_100_eq : finalDims 100 100 = (200, 200) := by
  have hs : finalScale 100 100 = 2 := by
    unfold finalScale
    rw [if_pos (by norm_num)]
    norm_num
  have hfloor : ⌊((100 : ℕ) : ℝ) * finalScale 100 100⌋ = 200 := by
    rw [hs]
    have : ((100 : ℕ) : ℝ) * 2 = ((200 : ℤ) : ℝ) := by norm_num
    rw [this, Int.floor_intCast]
  unfold finalDims
  rw [hfloor]
  rfl

/-- Claim C3 counterexample: in final mode a 100×100 source is upscaled
(`scale = min(2, 1500/100) = 2`), so the output raster is 200×200, not
100×100 — the end-to-end output is not pixel-identical to the input "in
either run mode". -/
theorem final_mode_dims_counterexample :
    finalDims 100 100 = (200, 200) ∧ finalDims 100 100 ≠ (100, 100) :=
  ⟨finalDims_100_eq, by rw [finalDims_100_eq]; simp⟩

/-- Claim C3 amended: with all settings zero/false the preview run is
pixel-identical to the input with identical dimensions (scale 1, no active
stage), and the final-mode filter chain also changes no sample — but the
final-mode raster has dimensions 200×200, because the canvas is upscaled
before the chain runs. -/
theorem pipeline_zero_settings_amended :
    realtimeDims 100 100 = (100, 100) ∧
    finalDims 100 100 = (200, 200) ∧
    (∀ img : Image, realtimeChain zeroSettings img = img) ∧
    (∀ img : Image, finalChain zeroSettings img = img) := by
  refine ⟨?_, ?_, ?_, ?_⟩
  · have hs : realtimeScale 100 100 = 1 := by
      unfold realtimeScale
      norm_num
    have hfloor : ⌊((100 : ℕ) : ℝ) * realtimeScale 100 100⌋ = 100 := by
      rw [hs]
      have : ((100 : ℕ) : ℝ) * 1 = ((100 : ℤ) : ℝ) := by norm_num
      rw [this, Int.floor_intCast]
    unfold realtimeDims
    rw [hfloor]
    rfl
  · exact finalDims_100_eq
  · intro img
    simp [realtimeChain, zeroSettings]
  · intro img
    simp [finalChain, zeroSettings]

/-- Claim C1, evaluated at the failing input (code bug): processing a
uniform (128,128,128) opaque image with brightness 50 and every other stage
inactive yields — in both run modes' filter chains — a still-uniform raster
whose every RGB sample is `(128/255)^(3/2) * 255 ≈ 90.7`, strictly BELOW
128: the gamma exponent `1 + brightness/100 = 1.5` darkens mid-gray, while
the claim (and spec §8) promise a value exceeding 128. -/
theorem brightness50_on_gray_darkens :
    (∀ i, (realtimeChain brightSettings (grayImage 100 100)).data i =
      if i < 40000 ∧ ¬i % 4 = 3 then (128 / 255 : ℝ) ^ ((3 : ℝ) / 2) * 255
      else (grayImage 100 100).data i) ∧
    (∀ i, (finalChain brightSettings (grayImage 200 200)).data i =
      if i < 160000 ∧ ¬i % 4 = 3 then (128 / 255 : ℝ) ^ ((3 : ℝ) / 2) * 255
      else (grayImage 200 200).data i) ∧
    (128 / 255 : ℝ) ^ ((3 : ℝ) / 2) * 255 < 128 := by
  have hsample : toneMapSample ((50 : ℚ) : ℝ) ((0 : ℚ) : ℝ) 128 =
      (128 / 255 : ℝ) ^ ((3 : ℝ) / 2) * 255 := by
    unfold toneMapSample applySCurve
    push_cast
    rw [if_pos (by norm_num)]
    have he : (1 : ℝ) + 50 / 100 = (3 : ℝ) / 2 := by norm_num
    rw [he]
    have h0 : (0 : ℝ) ≤ (128 / 255 : ℝ) ^ ((3 : ℝ) / 2) * 255 :=
      mul_nonneg (Real.rpow_nonneg (by norm_num) _) (by norm_num)
    have h1 : (128 / 255 : ℝ) ^ ((3 : ℝ) / 2) * 255 ≤ 255 := by
      have := Real.rpow_le_one (x := (128 / 255 : ℝ)) (z := (3 : ℝ) / 2)
        (by norm_num) (by norm_num) (by norm_num)
      nlinarith
    rw [max_eq_right h0, min_eq_right h1]
  have hlt : (128 / 255 : ℝ) ^ ((3 : ℝ) / 2) * 255 < 128 := by
    have hsplit : ((3 : ℝ) / 2) = 1 + 1 / 2 := by norm_num
    rw [hsplit, Real.rpow_add (by norm_num : (0 : ℝ) < 128 / 255),
      Real.rpow_one]
    have hroot : (128 / 255 : ℝ) ^ ((1 : ℝ) / 2) < 1 :=
      Real.rpow_lt_one (by norm_num) (by norm_num) (by norm_num)
    have hnn : (0 : ℝ) ≤ (128 / 255 : ℝ) ^ ((1 : ℝ) / 2) :=
      Real.rpow_nonneg (by norm_num) _
    nlinarith
  have hchain : ∀ w h : ℕ,
      realtimeChain brightSettings (grayImage w h) =
        applyAdvancedToneMapping (grayImage w h) ((50 : ℚ) : ℝ) ((0 : ℚ) : ℝ) := by
    intro w h
    simp [realtimeChain, brightSettings]
  have hchain' : ∀ w h : ℕ,
      finalChain brightSettings (grayImage w h) =
        applyAdvancedToneMapping (grayImage w h) ((50 : ℚ) : ℝ) ((0 : ℚ) : ℝ) := by
    intro w h
    simp [finalChain, brightSettings]
  have hdata : ∀ (w h : ℕ) (i : ℕ),
      (applyAdvancedToneMapping (grayImage w h) ((50 : ℚ) : ℝ) ((0 : ℚ) : ℝ)).data i =
        if i < w * h * 4 ∧ ¬i % 4 = 3 then (128 / 255 : ℝ) ^ ((3 : ℝ) / 2) * 255
        else (grayImage w h).data i := by
    intro w h i
    show (if i < (grayImage w h).width * (grayImage w h).height * 4 ∧ i % 4 < 3
        then toneMapSample _ _ ((grayImage w h).data i)
        else (grayImage w h).data i) = _
    have hwh : (grayImage w h).width = w ∧ (grayImage w h).height = h := ⟨rfl, rfl⟩
    rcases Nat.lt_or_ge i (w * h * 4) with hi | hi
    · rcases Nat.lt_or_ge (i % 4) 3 with hm | hm
      · rw [if_pos ⟨by rw [hwh.1, hwh.2]; exact hi, hm⟩,
          if_pos ⟨hi, by omega⟩]
        have : (grayImage w h).data i = 128 := by
          show (if i % 4 = 3 then (255 : ℝ) else 128) = 128
          rw [if_neg (by omega)]
        rw [this, hsample]
      · rw [if_neg (by rw [hwh.1, hwh.2]; omega), if_neg (by omega)]
    · rw [if_neg (by rw [hwh.1, hwh.2]; omega), if_neg (by omega)]
  refine ⟨?_, ?_, hlt⟩
  · intro i
    rw [hchain 100 100, hdata 100 100 i]
  · intro i
    rw [hchain' 200 200, hdata 200 200 i]

/-- A filter stage preserves the buffer length `width*height*4`, the
dimensions, and every alpha sample. -/
def alphaLenPreserved (out img : Image) : Prop :=
  out.byteLength = img.byteLength ∧ out.width = img.width ∧
    out.height = img.height ∧ ∀ k, out.data (4 * k + 3) = img.data (4 * k + 3)

lemma gaussianBlur_alpha (img : Image) (w h : ℕ) (radius : ℝ) (idx : ℕ)
    (hm : idx % 4 = 3) :
    (gaussianBlur img w h radius).data idx = img.data idx := by
  unfold gaussianBlur
  dsimp only
  rw [if_neg (fun hc => absurd hc.2 (by omega)),
    if_neg (fun hc => absurd hc.2 (by omega))]

lemma applyUnsharpMask_alpha (img : Image) (w h : ℕ)
    (amount radius threshold : ℝ) (idx : ℕ) (hm : idx % 4 = 3) :
    (applyUnsharpMask img w h amount radius threshold).data idx =
      img.data idx := by
  unfold applyUnsharpMask
  dsimp only
  rw [if_neg (fun hc => absurd hc.2 (by omega))]

lemma applyBilateralFilter_alpha (img : Image) (w h : ℕ)
    (spatialS intensityS : ℝ) (idx : ℕ) (hm : idx % 4 = 3) :
    (applyBilateralFilter img w h spatialS intensityS).data idx =
      img.data idx := by
  unfold applyBilateralFilter
  dsimp only
  rw [if_neg (fun hc => absurd hc.1 (by omega))]

lemma applyAdvancedToneMapping_alpha (img : Image) (bright contr : ℝ)
    (idx : ℕ) (hm : idx % 4 = 3) :
    (applyAdvancedToneMapping img bright contr).data idx = img.data idx := by
  unfold applyAdvancedToneMapping
  dsimp only
  rw [if_neg (fun hc => absurd hc.2 (by omega))]

lemma applyAdvancedSaturation_alpha (img : Image) (sat : ℝ) (idx : ℕ)
    (hm : idx % 4 = 3) :
    (applyAdvancedSaturation img sat).data idx = img.data idx := by
  unfold applyAdvancedSaturation
  dsimp only
  rw [if_neg (fun hc => absurd hc.2 (by omega))]

lemma applyCLAHE_alpha (img : Image) (w h : ℕ) (idx : ℕ)
    (hm : idx % 4 = 3) :
    (applyCLAHE img w h).data idx = img.data idx := by
  unfold applyCLAHE
  dsimp only
  rw [if_neg (fun hc => absurd hc.2 (by omega))]

lemma enhanceDetails_alpha (img : Image) (w h : ℕ) (idx : ℕ)
    (hm : idx % 4 = 3) :
    (enhanceDetails img w h).data idx = img.data idx := by
  unfold enhanceDetails
  dsimp only
  rw [if_neg (fun hc => absurd hc.2 (by omega))]

lemma enhanceColors_alpha (img : Image) (idx : ℕ) (hm : idx % 4 = 3) :
    (enhanceColors img).data idx = img.data idx := by
  unfold enhanceColors
  dsimp only
  rw [if_neg (fun hc => absurd hc.2 (by omega))]

/-- Claim C6: every color/spatial filter stage (Gaussian blur, unsharp
mask, bilateral filter, tone mapping, saturation, CLAHE, detail
enhancement, color enhancement), at every parameter setting, keeps the
buffer length `width*height*4`, the dimensions, and every alpha sample
exactly unchanged. -/
theorem filters_preserve_alpha_and_length (img : Image)
    (radius amount uradius threshold spatialS intensityS bright contr sat : ℝ) :
    alphaLenPreserved (gaussianBlur img img.width img.height radius) img ∧
    alphaLenPreserved
      (applyUnsharpMask img img.width img.height amount uradius threshold) img ∧
    alphaLenPreserved
      (applyBilateralFilter img img.width img.height spatialS intensityS) img ∧
    alphaLenPreserved (applyAdvancedToneMapping img bright contr) img ∧
    alphaLenPreserved (applyAdvancedSaturation img sat) img ∧
    alphaLenPreserved (applyCLAHE img img.width img.height) img ∧
    alphaLenPreserved (enhanceDetails img img.width img.height) img ∧
    alphaLenPreserved (enhanceColors img) img :=
  ⟨⟨rfl, rfl, rfl, fun k => gaussianBlur_alpha img _ _ radius _ (by omega)⟩,
   ⟨rfl, rfl, rfl, fun k => applyUnsharpMask_alpha img _ _ _ _ _ _ (by omega)⟩,
   ⟨rfl, rfl, rfl, fun k => applyBilateralFilter_alpha img _ _ _ _ _ (by omega)⟩,
   ⟨rfl, rfl, rfl, fun k => applyAdvancedToneMapping_alpha img _ _ _ (by omega)⟩,
   ⟨rfl, rfl, rfl, fun k => applyAdvancedSaturation_alpha img _ _ (by omega)⟩,
   ⟨rfl, rfl, rfl, fun k => applyCLAHE_alpha img _ _ _ (by omega)⟩,
   ⟨rfl, rfl, rfl, fun k => enhanceDetails_alpha img _ _ _ (by omega)⟩,
   ⟨rfl, rfl, rfl, fun k => enhanceColors_alpha img _ (by omega)⟩⟩

lemma applyBilateralFilter_unchanged_of_small (img : Image) (w h : ℕ)
    (spatialS intensityS : ℝ)
    (hsmall : w ≤ 2 * (⌈spatialS * 2⌉).toNat ∨
      h ≤ 2 * (⌈spatialS * 2⌉).toNat) (idx : ℕ) :
    (applyBilateralFilter img w h spatialS intensityS).data idx =
      img.data idx := by
  unfold applyBilateralFilter
  dsimp only
  rw [if_neg]
  rintro ⟨-, h1, h2, h3, h4⟩
  rcases hsmall with hw | hh <;> omega

/-- Claim C10: the bilateral filter returns the entire image unchanged
whenever `width ≤ 2*ceil(spatialSigma*2)` or
`height ≤ 2*ceil(spatialSigma*2)` (the interior loops are then empty); in
particular the AI chain's fixed pass (`spatialSigma = 3`, `radius = 6`)
leaves any image with a dimension of 12 or fewer pixels completely
un-denoised. -/
theorem applyBilateralFilter_small_image_unchanged (img : Image) (w h : ℕ)
    (spatialS intensityS : ℝ)
    (hsmall : w ≤ 2 * (⌈spatialS * 2⌉).toNat ∨
      h ≤ 2 * (⌈spatialS * 2⌉).toNat) :
    (∀ idx, (applyBilateralFilter img w h spatialS intensityS).data idx =
      img.data idx) ∧
    (∀ (img2 : Image) (intensityS2 : ℝ),
      img2.width ≤ 12 ∨ img2.height ≤ 12 →
      ∀ idx, (applyBilateralFilter img2 img2.width img2.height 3
        intensityS2).data idx = img2.data idx) := by
  have hceil : (⌈(3 : ℝ) * 2⌉).toNat = 6 := by
    have h6 : ((3 : ℝ) * 2) = ((6 : ℤ) : ℝ) := by norm_num
    rw [h6, Int.ceil_intCast]
    rfl
  refine ⟨applyBilateralFilter_unchanged_of_small img w h _ _ hsmall, ?_⟩
  intro img2 intensityS2 hdim idx
  apply applyBilateralFilter_unchanged_of_small
  rw [hceil]
  omega

/-- Witness for C10: a 3×3 image with `spatialSigma = 1` (radius 2). -/
theorem applyBilateralFilter_small_image_unchanged_witness :
    ((3 : ℕ) ≤ 2 * (⌈(1 : ℝ) * 2⌉).toNat ∨
      (3 : ℕ) ≤ 2 * (⌈(1 : ℝ) * 2⌉).toNat) ∧
    (∀ idx, (applyBilateralFilter (grayImage 3 3) 3 3 1 1).data idx =
      (grayImage 3 3).data idx) := by
  have hceil : (⌈(1 : ℝ) * 2⌉).toNat = 2 := by
    have h2 : ((1 : ℝ) * 2) = ((2 : ℤ) : ℝ) := by norm_num
    rw [h2, Int.ceil_intCast]
    rfl
  have hyp : (3 : ℕ) ≤ 2 * (⌈(1 : ℝ) * 2⌉).toNat ∨
      (3 : ℕ) ≤ 2 * (⌈(1 : ℝ) * 2⌉).toNat := by
    rw [hceil]
    omega
  exact ⟨hyp,
    (applyBilateralFilter_small_image_unchanged (grayImage 3 3) 3 3 1 1 hyp).1⟩

lemma lumBin_lt_256 (img : Image) (x y : ℕ) (hx : x < img.width)
    (hy : y < img.height)
    (hdata : ∀ idx < img.width * img.height * 4,
      0 ≤ img.data idx ∧ img.data idx ≤ 255) :
    lumBin img img.width x y < 256 := by
  unfold lumBin
  have hp : y * img.width + x < img.width * img.height := by
    calc y * img.width + x < y * img.width + img.width := by omega
    _ = (y + 1) * img.width := by ring
    _ ≤ img.height * img.width := Nat.mul_le_mul_right _ hy
    _ = img.width * img.height := Nat.mul_comm _ _
  obtain ⟨h0r, h1r⟩ := hdata ((y * img.width + x) * 4) (by omega)
  obtain ⟨h0g, h1g⟩ := hdata ((y * img.width + x) * 4 + 1) (by omega)
  obtain ⟨h0b, h1b⟩ := hdata ((y * img.width + x) * 4 + 2) (by omega)
  have hround : round (0.299 * img.data ((y * img.width + x) * 4) +
      0.587 * img.data ((y * img.width + x) * 4 + 1) +
      0.114 * img.data ((y * img.width + x) * 4 + 2)) < 256 := by
    rw [round_eq]
    have h256 : (0.299 * img.data ((y * img.width + x) * 4) +
        0.587 * img.data ((y * img.width + x) * 4 + 1) +
        0.114 * img.data ((y * img.width + x) * 4 + 2)) + 1 / 2 <
        ((256 : ℤ) : ℝ) := by
      push_cast
      nlinarith
    exact Int.floor_lt.mpr h256
  omega

lemma tileHistogram_sum (img : Image) (bx byv ex ey : ℕ)
    (hex : ex ≤ img.width) (hey : ey ≤ img.height)
    (hdata : ∀ idx < img.width * img.height * 4,
      0 ≤ img.data idx ∧ img.data idx ≤ 255) :
    ∑ i ∈ Finset.range 256, tileHistogram img img.width bx byv ex ey i =
      tilePixelCount bx byv ex ey := by
  unfold tileHistogram
  rw [← Finset.card_eq_sum_card_fiberwise
    (f := fun q : ℕ × ℕ => lumBin img img.width q.1 q.2)
    (t := Finset.range 256)]
  · unfold tilePixelCount tileFinset
    rw [Finset.card_product]
    simp [Nat.card_Ico]
  · intro q hq
    rw [Finset.mem_range]
    unfold tileFinset at hq
    rw [Finset.mem_product, Finset.mem_Ico, Finset.mem_Ico] at hq
    exact lumBin_lt_256 img q.1 q.2 (lt_of_lt_of_le hq.1.2 hex)
      (lt_of_lt_of_le hq.2.2 hey) hdata

/-- Claim C4: for every tile of the local-contrast enhancer, the
clip-and-redistribute step conserves total histogram mass — after capping
each bin at `clipValue = 3*pixelCount/256` and adding `excess/256` to all
256 bins, the bins sum exactly to the tile's `pixelCount`, and hence
`cdf[255] = pixelCount`. -/
theorem applyCLAHE_mass_conservation (img : Image)
    (hdata : ∀ idx < img.width * img.height * 4,
      0 ≤ img.data idx ∧ img.data idx ≤ 255)
    (jx jy : ℕ) (hjx : 64 * jx < img.width) (hjy : 64 * jy < img.height) :
    (∑ i ∈ Finset.range 256, redistHist img img.width (64 * jx) (64 * jy)
        (min (64 * jx + 64) img.width) (min (64 * jy + 64) img.height) i) =
      (tilePixelCount (64 * jx) (64 * jy) (min (64 * jx + 64) img.width)
        (min (64 * jy + 64) img.height) : ℝ) ∧
    tileCdf img img.width (64 * jx) (64 * jy) (min (64 * jx + 64) img.width)
        (min (64 * jy + 64) img.height) 255 =
      (tilePixelCount (64 * jx) (64 * jy) (min (64 * jx + 64) img.width)
        (min (64 * jy + 64) img.height) : ℝ) := by
  have hcast : ∑ i ∈ Finset.range 256,
      (tileHistogram img img.width (64 * jx) (64 * jy)
        (min (64 * jx + 64) img.width) (min (64 * jy + 64) img.height) i : ℝ) =
      (tilePixelCount (64 * jx) (64 * jy) (min (64 * jx + 64) img.width)
        (min (64 * jy + 64) img.height) : ℝ) := by
    rw [← Nat.cast_sum]
    rw [tileHistogram_sum img _ _ _ _ (min_le_right _ _) (min_le_right _ _) hdata]
  have hmain : (∑ i ∈ Finset.range 256, redistHist img img.width (64 * jx)
      (64 * jy) (min (64 * jx + 64) img.width)
      (min (64 * jy + 64) img.height) i) =
      (tilePixelCount (64 * jx) (64 * jy) (min (64 * jx + 64) img.width)
        (min (64 * jy + 64) img.height) : ℝ) := by
    unfold redistHist
    rw [Finset.sum_add_distrib, Finset.sum_const, Finset.card_range]
    have hE : (256 : ℕ) • (tileExcess img img.width (64 * jx) (64 * jy)
        (min (64 * jx + 64) img.width) (min (64 * jy + 64) img.height) / 256) =
        tileExcess img img.width (64 * jx) (64 * jy)
          (min (64 * jx + 64) img.width) (min (64 * jy + 64) img.height) := by
      rw [nsmul_eq_mul]
      push_cast
      ring
    rw [hE]
    unfold tileExcess
    rw [Finset.sum_sub_distrib, hcast]
    ring
  exact ⟨hmain, hmain⟩

/-- Witness for C4: the top-left 64×64 tile of a uniform gray 100×100
image. -/
theorem applyCLAHE_mass_conservation_witness :
    (∀ idx < (grayImage 100 100).width * (grayImage 100 100).height * 4,
      0 ≤ (grayImage 100 100).data idx ∧ (grayImage 100 100).data idx ≤ 255) ∧
    tileCdf (grayImage 100 100) (grayImage 100 100).width (64 * 0) (64 * 0)
        (min (64 * 0 + 64) (grayImage 100 100).width)
        (min (64 * 0 + 64) (grayImage 100 100).height) 255 =
      (tilePixelCount (64 * 0) (64 * 0)
        (min (64 * 0 + 64) (grayImage 100 100).width)
        (min (64 * 0 + 64) (grayImage 100 100).height) : ℝ) := by
  have hd : ∀ idx < (grayImage 100 100).width * (grayImage 100 100).height * 4,
      0 ≤ (grayImage 100 100).data idx ∧ (grayImage 100 100).data idx ≤ 255 := by
    intro idx _
    show 0 ≤ (if idx % 4 = 3 then (255 : ℝ) else 128) ∧
      (if idx % 4 = 3 then (255 : ℝ) else 128) ≤ 255
    split <;> norm_num
  exact ⟨hd, (applyCLAHE_mass_conservation (grayImage 100 100) hd 0 0
    (by decide) (by decide)).2⟩

lemma cubicWeight_zero : cubicWeight 0 = 1 := by
  unfold cubicWeight
  norm_num

lemma cubicWeight_one : cubicWeight 1 = 0 := by
  unfold cubicWeight
  norm_num

lemma cubicWeight_neg_one : cubicWeight (-1) = 0 := by
  unfold cubicWeight
  rw [abs_neg]
  norm_num

lemma cubicWeight_neg_two : cubicWeight (-2) = 0 := by
  unfold cubicWeight
  rw [abs_neg]
  norm_num

/-- At integer sample positions the 4×4 cubic stencil collapses to the
center tap: `cubic(0) = 1` and `cubic(±1) = cubic(±2) = 0`. -/
lemma cubic_double_sum (g : ℤ → ℤ → ℝ) :
    (∑ m ∈ Finset.Icc (-1 : ℤ) 2, ∑ n ∈ Finset.Icc (-1 : ℤ) 2,
      g n m * (cubicWeight (0 - (n : ℝ)) * cubicWeight (0 - (m : ℝ)))) =
      g 0 0 := by
  have hcw : ∀ k : ℤ, -1 ≤ k → k ≤ 2 →
      cubicWeight (0 - (k : ℝ)) = if k = 0 then 1 else 0 := by
    intro k hk1 hk2
    interval_cases k
    · push_cast
      norm_num [cubicWeight_one]
    · norm_num [cubicWeight_zero]
    · push_cast
      norm_num [cubicWeight_neg_one]
    · push_cast
      norm_num [cubicWeight_neg_two]
  rw [Finset.sum_eq_single 0]
  · rw [Finset.sum_eq_single 0]
    · rw [hcw 0 (by norm_num) (by norm_num)]
      norm_num
    · intro n hn hne
      rw [Finset.mem_Icc] at hn
      rw [hcw n hn.1 hn.2, if_neg hne]
      ring
    · intro habs
      exact absurd (by decide : (0 : ℤ) ∈ Finset.Icc (-1 : ℤ) 2) habs
  · intro m hm hme
    apply Finset.sum_eq_zero
    intro n hn
    rw [Finset.mem_Icc] at hm
    rw [hcw m hm.1 hm.2, if_neg hme]
    ring
  · intro habs
    exact absurd (by decide : (0 : ℤ) ∈ Finset.Icc (-1 : ℤ) 2) habs

lemma getValueClamped_int (data : ℕ → ℝ) (w h : ℕ) (x y : ℕ)
    (hx : x < w) (hy : y < h) (c : ℕ) :
    getValueClamped data w h (x : ℤ) (y : ℤ) c = data ((y * w + x) * 4 + c) := by
  unfold getValueClamped
  dsimp only
  have hpx : min ((w : ℤ) - 1) (max 0 (x : ℤ)) = (x : ℤ) := by
    rw [max_eq_right (by positivity)]
    apply min_eq_right
    omega
  have hpy : min ((h : ℤ) - 1) (max 0 (y : ℤ)) = (y : ℤ) := by
    rw [max_eq_right (by positivity)]
    apply min_eq_right
    omega
  rw [hpx, hpy, Int.toNat_natCast, Int.toNat_natCast]

lemma bicubicInterpolate_int (data : ℕ → ℝ) (w h : ℕ) (x y : ℕ)
    (hx : x < w) (hy : y < h) (c : ℕ) :
    bicubicInterpolate data w h (x : ℝ) (y : ℝ) c =
      data ((y * w + x) * 4 + c) := by
  unfold bicubicInterpolate
  dsimp only
  simp only [Int.floor_natCast, Int.cast_natCast, sub_self]
  rw [cubic_double_sum (fun n m =>
    getValueClamped data w h ((x : ℤ) + n) ((y : ℤ) + m) c)]
  simp only [add_zero]
  exact getValueClamped_int data w h x y hx hy c

/-- Claim C5: bicubic resampling with `scaleFactor = 1` reproduces the
source image exactly (every channel of every pixel unchanged), and for
every `scaleFactor > 0` the output dimensions equal
`round(srcWidth*scaleFactor)` by `round(srcHeight*scaleFactor)`. -/
theorem bicubicUpscale_spec (img : Image) (scale : ℝ)
    (hdata : ∀ idx < img.width * img.height * 4,
      0 ≤ img.data idx ∧ img.data idx ≤ 255)
    (hs : 0 < scale) :
    (((bicubicUpscale img scale).width : ℤ) =
        round ((img.width : ℝ) * scale) ∧
      ((bicubicUpscale img scale).height : ℤ) =
        round ((img.height : ℝ) * scale)) ∧
    (bicubicUpscale img 1).width = img.width ∧
    (bicubicUpscale img 1).height = img.height ∧
    ∀ idx < img.width * img.height * 4,
      (bicubicUpscale img 1).data idx = img.data idx := by
  have hW : (round ((img.width : ℝ) * 1)).toNat = img.width := by
    rw [mul_one, round_natCast, Int.toNat_natCast]
  have hH : (round ((img.height : ℝ) * 1)).toNat = img.height := by
    rw [mul_one, round_natCast, Int.toNat_natCast]
  have hdim : ∀ n : ℕ, (((round ((n : ℝ) * scale)).toNat : ℤ)) =
      round ((n : ℝ) * scale) := by
    intro n
    apply Int.toNat_of_nonneg
    rw [round_eq]
    apply Int.floor_nonneg.mpr
    positivity
  refine ⟨⟨hdim img.width, hdim img.height⟩, hW, hH, ?_⟩
  intro idx hidx
  have hw0 : 0 < img.width := by
    rcases Nat.eq_zero_or_pos img.width with h | h
    · rw [h] at hidx; omega
    · exact h
  have hh0 : 0 < img.height := by
    rcases Nat.eq_zero_or_pos img.height with h | h
    · rw [h] at hidx; omega
    · exact h
  show (if idx < (round ((img.width : ℝ) * 1)).toNat *
      (round ((img.height : ℝ) * 1)).toNat * 4 then _ else _) = _
  rw [hW, hH, if_pos hidx]
  have hx : (idx / 4) % img.width < img.width := Nat.mod_lt _ hw0
  have hy : (idx / 4) / img.width < img.height := by
    apply Nat.div_lt_of_lt_mul
    have : idx / 4 < img.width * img.height := by omega
    omega
  rw [div_one, div_one,
    bicubicInterpolate_int img.data img.width img.height _ _ hx hy (idx % 4)]
  have hidxeq : ((idx / 4) / img.width * img.width + (idx / 4) % img.width) *
      4 + idx % 4 = idx := by
    have h1 := Nat.div_add_mod (idx / 4) img.width
    have h2 := Nat.div_add_mod idx 4
    calc ((idx / 4) / img.width * img.width + (idx / 4) % img.width) * 4 +
        idx % 4
        = (img.width * ((idx / 4) / img.width) + (idx / 4) % img.width) * 4 +
          idx % 4 := by ring_nf
      _ = (idx / 4) * 4 + idx % 4 := by rw [h1]
      _ = idx := by omega
  rw [hidxeq]
  obtain ⟨h0, h1⟩ := hdata idx hidx
  rw [max_eq_right h0, min_eq_right h1]

/-- Witness for C5: a 2×2 uniform image at `scale = 1`. -/
theorem bicubicUpscale_spec_witness :
    ((∀ idx < (grayImage 2 2).width * (grayImage 2 2).height * 4,
        0 ≤ (grayImage 2 2).data idx ∧ (grayImage 2 2).data idx ≤ 255) ∧
      (0 : ℝ) < 1) ∧
    ∀ idx < (grayImage 2 2).width * (grayImage 2 2).height * 4,
      (bicubicUpscale (grayImage 2 2) 1).data idx =
        (grayImage 2 2).data idx := by
  have hd : ∀ idx < (grayImage 2 2).width * (grayImage 2 2).height * 4,
      0 ≤ (grayImage 2 2).data idx ∧ (grayImage 2 2).data idx ≤ 255 := by
    intro idx _
    show 0 ≤ (if idx % 4 = 3 then (255 : ℝ) else 128) ∧
      (if idx % 4 = 3 then (255 : ℝ) else 128) ≤ 255
    split <;> norm_num
  exact ⟨⟨hd, by norm_num⟩,
    (bicubicUpscale_spec (grayImage 2 2) 1 hd (by norm_num)).2.2.2⟩

/-- Claim C8: for every image and bilateral parameters with
`radius = ceil(spatialSigma*2)`: every pixel within `radius` of a border
keeps all four channel samples, and every interior pixel's RGB samples
equal the weight-sum-normalized weighted average of its `(2*radius+1)²`
neighborhood with weight
`exp(-spatialDist²/(2σs²)) * exp(-intensityDist²/(2σi²))`, the intensity
distance taken per channel against the center sample. -/
theorem applyBilateralFilter_spec (img : Image) (spatialS intensityS : ℝ)
    (radius : ℕ) (hrad : radius = (⌈spatialS * 2⌉).toNat)
    (hσs : 0 < spatialS) (hσi : intensityS ≠ 0) :
    (∀ x y c, c < 4 → x < img.width → y < img.height →
      (x < radius ∨ y < radius ∨ img.width ≤ x + radius ∨
        img.height ≤ y + radius) →
      (applyBilateralFilter img img.width img.height spatialS
        intensityS).data ((y * img.width + x) * 4 + c) =
        img.data ((y * img.width + x) * 4 + c)) ∧
    (∀ x y c, c < 3 → radius ≤ x → x + radius < img.width → radius ≤ y →
      y + radius < img.height →
      (applyBilateralFilter img img.width img.height spatialS
        intensityS).data ((y * img.width + x) * 4 + c) =
        (∑ dy ∈ Finset.Icc (-(radius : ℤ)) (radius : ℤ),
          ∑ dx ∈ Finset.Icc (-(radius : ℤ)) (radius : ℤ),
            img.data ((((y : ℤ) + dy).toNat * img.width +
                ((x : ℤ) + dx).toNat) * 4 + c) *
              (Real.exp (-((dx * dx + dy * dy : ℤ) : ℝ) /
                  (2 * spatialS * spatialS)) *
                Real.exp (-(|img.data ((y * img.width + x) * 4 + c) -
                    img.data ((((y : ℤ) + dy).toNat * img.width +
                      ((x : ℤ) + dx).toNat) * 4 + c)| *
                  |img.data ((y * img.width + x) * 4 + c) -
                    img.data ((((y : ℤ) + dy).toNat * img.width +
                      ((x : ℤ) + dx).toNat) * 4 + c)|) /
                  (2 * intensityS * intensityS)))) /
        (∑ dy ∈ Finset.Icc (-(radius : ℤ)) (radius : ℤ),
          ∑ dx ∈ Finset.Icc (-(radius : ℤ)) (radius : ℤ),
            Real.exp (-((dx * dx + dy * dy : ℤ) : ℝ) /
                (2 * spatialS * spatialS)) *
              Real.exp (-(|img.data ((y * img.width + x) * 4 + c) -
                  img.data ((((y : ℤ) + dy).toNat * img.width +
                    ((x : ℤ) + dx).toNat) * 4 + c)| *
                |img.data ((y * img.width + x) * 4 + c) -
                  img.data ((((y : ℤ) + dy).toNat * img.width +
                    ((x : ℤ) + dx).toNat) * 4 + c)|) /
                (2 * intensityS * intensityS)))) := by
  subst hrad
  constructor
  · intro x y c hc hx hy hborder
    have hc4 : ((y * img.width + x) * 4 + c) % 4 = c := by omega
    have hp : ((y * img.width + x) * 4 + c) / 4 = y * img.width + x := by
      omega
    have hxx : (y * img.width + x) % img.width = x := by
      rw [Nat.mul_comm y img.width, Nat.mul_add_mod]
      exact Nat.mod_eq_of_lt hx
    have hyy : (y * img.width + x) / img.width = y := by
      rw [Nat.mul_comm y img.width,
        Nat.mul_add_div (by omega : 0 < img.width)]
      rw [Nat.div_eq_of_lt hx]
      omega
    unfold applyBilateralFilter
    dsimp only
    rw [hc4, hp, hxx, hyy, if_neg]
    rintro ⟨hc3, h1, h2, h3, h4⟩
    have h2' : x + (⌈spatialS * 2⌉).toNat < img.width := by exact_mod_cast h2
    have h4' : y + (⌈spatialS * 2⌉).toNat < img.height := by exact_mod_cast h4
    rcases hborder with h | h | h | h <;> omega
  · intro x y c hc h1 h2 h3 h4
    have hx : x < img.width := by omega
    have hc4 : ((y * img.width + x) * 4 + c) % 4 = c := by omega
    have hp : ((y * img.width + x) * 4 + c) / 4 = y * img.width + x := by
      omega
    have hxx : (y * img.width + x) % img.width = x := by
      rw [Nat.mul_comm y img.width, Nat.mul_add_mod]
      exact Nat.mod_eq_of_lt hx
    have hyy : (y * img.width + x) / img.width = y := by
      rw [Nat.mul_comm y img.width,
        Nat.mul_add_div (by omega : 0 < img.width)]
      rw [Nat.div_eq_of_lt hx]
      omega
    unfold applyBilateralFilter
    dsimp only
    rw [hc4, hp, hxx, hyy, if_pos
      ⟨hc, h1, by exact_mod_cast h2, h3, by exact_mod_cast h4⟩]
    rw [if_pos]
    apply Finset.sum_pos
    · intro dy _
      apply Finset.sum_pos
      · intro dx _
        exact mul_pos (Real.exp_pos _) (Real.exp_pos _)
      · exact ⟨0, by simp⟩
    · exact ⟨0, by simp⟩

/-- Witness for C8: a 5×5 uniform image with `spatialSigma = 1`
(radius 2), `intensitySigma = 1`; the corner pixel (0,0) is in the border
band. -/
theorem applyBilateralFilter_spec_witness :
    ((2 : ℕ) = (⌈(1 : ℝ) * 2⌉).toNat ∧ (0 : ℝ) < 1 ∧ (1 : ℝ) ≠ 0) ∧
    (applyBilateralFilter (grayImage 5 5) (grayImage 5 5).width
        (grayImage 5 5).height 1 1).data ((0 * (grayImage 5 5).width + 0) * 4 + 0) =
      (grayImage 5 5).data ((0 * (grayImage 5 5).width + 0) * 4 + 0) := by
  have hceil : (2 : ℕ) = (⌈(1 : ℝ) * 2⌉).toNat := by
    have h2 : ((1 : ℝ) * 2) = ((2 : ℤ) : ℝ) := by norm_num
    rw [h2, Int.ceil_intCast]
    rfl
  refine ⟨⟨hceil, by norm_num, by norm_num⟩, ?_⟩
  exact (applyBilateralFilter_spec (grayImage 5 5) 1 1 2 hceil (by norm_num)
    (by norm_num)).1 0 0 0 (by norm_num) (by decide) (by decide)
    (Or.inl (by norm_num))

lemma floor_eval (a : ℝ) (k : ℤ) (h1 : (k : ℝ) ≤ a) (h2 : a < k + 1) :
    ⌊a⌋ = k :=
  Int.floor_eq_iff.mpr ⟨h1, by exact_mod_cast h2⟩

lemma jsFmod_eval (a : ℝ) (k : ℤ) (h1 : (k : ℝ) ≤ a / 2)
    (h2 : a / 2 < k + 1) : jsFmod a 2 = a - 2 * k := by
  unfold jsFmod
  rw [floor_eval (a / 2) k h1 h2]

/-- The reconstruction chroma `(1 - |2l - 1|) * clamp(s * 1, 0, 1)` equals
`max - min`: with factor 1 the clamp is the identity on `s ∈ [0, 1]` and the
two `s` branches cancel against `1 - |2l - 1|`. -/
lemma chroma_eq (r g b : ℝ) (h0r : 0 ≤ r) (h1r : r ≤ 1) (h0g : 0 ≤ g)
    (h1g : g ≤ 1) (h0b : 0 ≤ b) (h1b : b ≤ 1)
    (hdiff : max r (max g b) - min r (min g b) ≠ 0) :
    (1 - |2 * hslL r g b - 1|) * min 1 (max 0 (hslS r g b * 1)) =
      max r (max g b) - min r (min g b) := by
  have hble : min r (min g b) ≤ max r (max g b) :=
    le_trans (min_le_left _ _) (le_max_left _ _)
  have hd : 0 < max r (max g b) - min r (min g b) :=
    lt_of_le_of_ne (by linarith) (Ne.symm hdiff)
  have h0m0 : 0 ≤ min r (min g b) := le_min h0r (le_min h0g h0b)
  have hM1 : max r (max g b) ≤ 1 := max_le h1r (max_le h1g h1b)
  unfold hslS hslL
  dsimp only
  by_cases hl : (max r (max g b) + min r (min g b)) / 2 > 0.5
  · rw [if_pos hl]
    have hsum1 : 1 < max r (max g b) + min r (min g b) := by
      rw [gt_iff_lt, lt_div_iff₀ (by norm_num)] at hl
      linarith
    have hsum2 : max r (max g b) + min r (min g b) < 2 := by linarith
    have hs0 : 0 ≤ (max r (max g b) - min r (min g b)) /
        (2 - (max r (max g b) + min r (min g b))) :=
      div_nonneg (by linarith) (by linarith)
    have hs1 : (max r (max g b) - min r (min g b)) /
        (2 - (max r (max g b) + min r (min g b))) ≤ 1 := by
      rw [div_le_one (by linarith)]
      linarith
    rw [mul_one, max_eq_right hs0, min_eq_right hs1]
    rw [show 2 * ((max r (max g b) + min r (min g b)) / 2) - 1 =
      max r (max g b) + min r (min g b) - 1 by ring]
    rw [abs_of_nonneg (by linarith)]
    rw [show (1 : ℝ) - (max r (max g b) + min r (min g b) - 1) =
      2 - (max r (max g b) + min r (min g b)) by ring]
    rw [mul_comm, div_mul_cancel₀ _ (by linarith :
      2 - (max r (max g b) + min r (min g b)) ≠ 0)]
  · rw [if_neg hl]
    have hsum1 : max r (max g b) + min r (min g b) ≤ 1 := by
      rw [gt_iff_lt, not_lt, div_le_iff₀ (by norm_num)] at hl
      linarith
    have hsum0 : 0 < max r (max g b) + min r (min g b) := by linarith
    have hs0 : 0 ≤ (max r (max g b) - min r (min g b)) /
        (max r (max g b) + min r (min g b)) :=
      div_nonneg (by linarith) (by linarith)
    have hs1 : (max r (max g b) - min r (min g b)) /
        (max r (max g b) + min r (min g b)) ≤ 1 := by
      rw [div_le_one (by linarith)]
      linarith
    rw [mul_one, max_eq_right hs0, min_eq_right hs1]
    rw [show 2 * ((max r (max g b) + min r (min g b)) / 2) - 1 =
      max r (max g b) + min r (min g b) - 1 by ring]
    rw [abs_of_nonpos (by linarith)]
    rw [show (1 : ℝ) - -(max r (max g b) + min r (min g b) - 1) =
      max r (max g b) + min r (min g b) by ring]
    rw [mul_comm, div_mul_cancel₀ _ (by linarith :
      max r (max g b) + min r (min g b) ≠ 0)]

lemma msub_eq (r g b : ℝ) :
    hslL r g b - (max r (max g b) - min r (min g b)) / 2 =
      min r (min g b) := by
  unfold hslL
  ring

/-- HSL round-trip: with `factor = 1` the per-pixel body of
`applyAdvancedSaturation` reconstructs the original normalized RGB exactly,
for every non-achromatic pixel with channels in `[0, 1]`. -/
lemma saturatePixel_roundtrip (r g b : ℝ) (h0r : 0 ≤ r) (h1r : r ≤ 1)
    (h0g : 0 ≤ g) (h1g : g ≤ 1) (h0b : 0 ≤ b) (h1b : b ≤ 1)
    (hdiff : max r (max g b) - min r (min g b) ≠ 0) :
    saturatePixel 1 r g b = (r, g, b) := by
  have hble : min r (min g b) ≤ max r (max g b) :=
    le_trans (min_le_left _ _) (le_max_left _ _)
  have hd : 0 < max r (max g b) - min r (min g b) :=
    lt_of_le_of_ne (by linarith) (Ne.symm hdiff)
  have hc := chroma_eq r g b h0r h1r h0g h1g h0b h1b hdiff
  have hm := msub_eq r g b
  have h6ne : (6 : ℝ) ≠ 0 := by norm_num
  have hsector : sectorRGB ⌊hslH r g b * 6⌋
      (max r (max g b) - min r (min g b))
      ((max r (max g b) - min r (min g b)) *
        (1 - |jsFmod (hslH r g b * 6) 2 - 1|)) =
      (r - min r (min g b), g - min r (min g b), b - min r (min g b)) := by
    by_cases hMr : max r (max g b) = r
    · have hgbr : max g b ≤ r := max_eq_left_iff.mp hMr
      have hgr : g ≤ r := le_trans (le_max_left _ _) hgbr
      have hbr : b ≤ r := le_trans (le_max_right _ _) hgbr
      by_cases hgb : g < b
      · -- max = r, g < b: hue in sector 5
        have hm0 : min r (min g b) = g := by
          rw [min_eq_left (le_of_lt hgb)]
          exact min_eq_right hgr
        rw [hMr, hm0]
        have hdrg : 0 < r - g := by rw [hMr, hm0] at hd; exact hd
        have hh6 : hslH r g b * 6 = (g - b) / (r - g) + 6 := by
          unfold hslH
          dsimp only
          rw [if_pos hMr, if_pos hgb, hMr, hm0, div_mul_cancel₀ _ h6ne]
        have hq1 : -1 ≤ (g - b) / (r - g) := by
          rw [le_div_iff₀ hdrg]
          linarith
        have hq2 : (g - b) / (r - g) < 0 :=
          div_neg_of_neg_of_pos (by linarith) hdrg
        have hfloor : ⌊(g - b) / (r - g) + 6⌋ = 5 :=
          floor_eval _ 5 (by push_cast; linarith) (by push_cast; linarith)
        have hfmod : jsFmod ((g - b) / (r - g) + 6) 2 =
            (g - b) / (r - g) + 2 := by
          rw [jsFmod_eval _ 2 (by push_cast; linarith)
            (by push_cast; linarith)]
          push_cast
          ring
        have habs : |(g - b) / (r - g) + 2 - 1| = (g - b) / (r - g) + 1 := by
          rw [show (g - b) / (r - g) + 2 - 1 = (g - b) / (r - g) + 1 by ring]
          exact abs_of_nonneg (by linarith)
        rw [hh6, hfloor, hfmod, habs]
        have h1 : (1 : ℝ) - ((g - b) / (r - g) + 1) = (b - g) / (r - g) := by
          ring
        rw [h1, mul_comm, div_mul_cancel₀ _ (ne_of_gt hdrg)]
        simp [sectorRGB]
      · -- max = r, b ≤ g: hue in sector 0 (or 1 at the g = r boundary)
        have hbg : b ≤ g := not_lt.mp hgb
        have hm0 : min r (min g b) = b := by
          rw [min_eq_right hbg]
          exact min_eq_right hbr
        rw [hMr, hm0]
        have hdrb : 0 < r - b := by rw [hMr, hm0] at hd; exact hd
        have hh6 : hslH r g b * 6 = (g - b) / (r - b) + 0 := by
          unfold hslH
          dsimp only
          rw [if_pos hMr, if_neg hgb, hMr, hm0, div_mul_cancel₀ _ h6ne]
        have hq0 : 0 ≤ (g - b) / (r - b) :=
          div_nonneg (by linarith) (by linarith)
        have hq1 : (g - b) / (r - b) ≤ 1 := by
          rw [div_le_one hdrb]
          linarith
        by_cases hlt : (g - b) / (r - b) < 1
        · -- interior of sector 0
          have hfloor : ⌊(g - b) / (r - b) + 0⌋ = 0 :=
            floor_eval _ 0 (by push_cast; linarith) (by push_cast; linarith)
          have hfmod : jsFmod ((g - b) / (r - b) + 0) 2 =
              (g - b) / (r - b) := by
            rw [jsFmod_eval _ 0 (by push_cast; linarith)
              (by push_cast; linarith)]
            push_cast
            ring
          have habs : |(g - b) / (r - b) - 1| = 1 - (g - b) / (r - b) := by
            rw [abs_of_nonpos (by linarith)]
            ring
          rw [hh6, hfloor, hfmod, habs]
          have h1 : (1 : ℝ) - (1 - (g - b) / (r - b)) =
              (g - b) / (r - b) := by ring
          rw [h1, mul_comm, div_mul_cancel₀ _ (ne_of_gt hdrb)]
          simp [sectorRGB]
        · -- boundary g = r: hue exactly 1/6, sector 1
          have hteq : (g - b) / (r - b) = 1 := le_antisymm hq1 (not_lt.mp hlt)
          have hgr' : g = r := by
            have := (div_eq_one_iff_eq (ne_of_gt hdrb)).mp hteq
            linarith
          have hE : hslH r g b * 6 = 1 := by
            rw [hh6, hteq]
            norm_num
          have hfloor : ⌊(1 : ℝ)⌋ = 1 := floor_eval _ 1 (by norm_num)
            (by norm_num)
          have hfmod : jsFmod (1 : ℝ) 2 = 1 := by
            rw [jsFmod_eval _ 0 (by norm_num) (by norm_num)]
            push_cast
            ring
          rw [hE, hfloor, hfmod]
          rw [show |(1 : ℝ) - 1| = 0 by norm_num]
          rw [show (1 : ℝ) - 0 = 1 by norm_num, mul_one]
          rw [hgr']
          simp [sectorRGB]
    · by_cases hMg : max r (max g b) = g
      · -- max = g (and max ≠ r, so r < g)
        have hrg : r < g := by
          have h1 : r ≤ max r (max g b) := le_max_left _ _
          rw [hMg] at h1
          rcases eq_or_lt_of_le h1 with he | hlt
          · exact absurd (hMg.trans he.symm) hMr
          · exact hlt
        have hbg : b ≤ g := by
          have h1 : max g b ≤ max r (max g b) := le_max_right _ _
          rw [hMg] at h1
          exact le_trans (le_max_right _ _) h1
        by_cases hbr : b < r
        · -- b < r ≤ g: sector 1
          have hm0 : min r (min g b) = b := by
            rw [min_eq_right hbg]
            exact min_eq_right (le_of_lt hbr)
          rw [hMg, hm0]
          have hdgb : 0 < g - b := by rw [hMg, hm0] at hd; exact hd
          have hh6 : hslH r g b * 6 = (b - r) / (g - b) + 2 := by
            unfold hslH
            dsimp only
            rw [if_neg hMr, if_pos hMg, hMg, hm0, div_mul_cancel₀ _ h6ne]
          have hq1 : -1 < (b - r) / (g - b) := by
            rw [lt_div_iff₀ hdgb]
            linarith
          have hq2 : (b - r) / (g - b) < 0 :=
            div_neg_of_neg_of_pos (by linarith) hdgb
          have hfloor : ⌊(b - r) / (g - b) + 2⌋ = 1 :=
            floor_eval _ 1 (by push_cast; linarith) (by push_cast; linarith)
          have hfmod : jsFmod ((b - r) / (g - b) + 2) 2 =
              (b - r) / (g - b) + 2 := by
            rw [jsFmod_eval _ 0 (by push_cast; linarith)
              (by push_cast; linarith)]
            push_cast
            ring
          have habs : |(b - r) / (g - b) + 2 - 1| =
              (b - r) / (g - b) + 1 := by
            rw [show (b - r) / (g - b) + 2 - 1 = (b - r) / (g - b) + 1
              by ring]
            exact abs_of_nonneg (by linarith)
          rw [hh6, hfloor, hfmod, habs]
          have h1 : (1 : ℝ) - ((b - r) / (g - b) + 1) =
              (r - b) / (g - b) := by ring
          rw [h1, mul_comm, div_mul_cancel₀ _ (ne_of_gt hdgb)]
          simp [sectorRGB]
        · -- r ≤ b ≤ g: sector 2 (or 3 at the b = g boundary)
          have hrb : r ≤ b := not_lt.mp hbr
          have hm0 : min r (min g b) = r := by
            rw [min_eq_right hbg]
            exact min_eq_left hrb
          rw [hMg, hm0]
          have hdgr : 0 < g - r := by rw [hMg, hm0] at hd; exact hd
          have hh6 : hslH r g b * 6 = (b - r) / (g - r) + 2 := by
            unfold hslH
            dsimp only
            rw [if_neg hMr, if_pos hMg, hMg, hm0, div_mul_cancel₀ _ h6ne]
          have hq0 : 0 ≤ (b - r) / (g - r) :=
            div_nonneg (by linarith) (by linarith)
          have hq1 : (b - r) / (g - r) ≤ 1 := by
            rw [div_le_one hdgr]
            linarith
          by_cases hlt : (b - r) / (g - r) < 1
          · -- interior of sector 2
            have hfloor : ⌊(b - r) / (g - r) + 2⌋ = 2 :=
              floor_eval _ 2 (by push_cast; linarith)
                (by push_cast; linarith)
            have hfmod : jsFmod ((b - r) / (g - r) + 2) 2 =
                (b - r) / (g - r) := by
              rw [jsFmod_eval _ 1 (by push_cast; linarith)
                (by push_cast; linarith)]
              push_cast
              ring
            have habs : |(b - r) / (g - r) - 1| =
                1 - (b - r) / (g - r) := by
              rw [abs_of_nonpos (by linarith)]
              ring
            rw [hh6, hfloor, hfmod, habs]
            have h1 : (1 : ℝ) - (1 - (b - r) / (g - r)) =
                (b - r) / (g - r) := by ring
            rw [h1, mul_comm, div_mul_cancel₀ _ (ne_of_gt hdgr)]
            simp [sectorRGB]
          · -- boundary b = g: hue exactly 1/2, sector 3
            have hteq : (b - r) / (g - r) = 1 :=
              le_antisymm hq1 (not_lt.mp hlt)
            have hbg' : b = g := by
              have := (div_eq_one_iff_eq (ne_of_gt hdgr)).mp hteq
              linarith
            have hE : hslH r g b * 6 = 3 := by
              rw [hh6, hteq]
              norm_num
            have hfloor : ⌊(3 : ℝ)⌋ = 3 := floor_eval _ 3 (by norm_num)
              (by norm_num)
            have hfmod : jsFmod (3 : ℝ) 2 = 1 := by
              rw [jsFmod_eval _ 1 (by norm_num) (by norm_num)]
              push_cast
              ring
            rw [hE, hfloor, hfmod]
            rw [show |(1 : ℝ) - 1| = 0 by norm_num]
            rw [show (1 : ℝ) - 0 = 1 by norm_num, mul_one]
            rw [hbg']
            simp [sectorRGB]
      · -- max = b (max ≠ r, max ≠ g)
        have hMb : max r (max g b) = b := by
          rcases max_choice r (max g b) with h | h
          · exact absurd h hMr
          · rcases max_choice g b with h2 | h2
            · exact absurd (h.trans h2) hMg
            · exact h.trans h2
        have hrb : r < b := by
          have h1 : r ≤ b := by
            have := le_max_left r (max g b)
            rwa [hMb] at this
          rcases eq_or_lt_of_le h1 with he | hlt
          · exact absurd (hMb.trans he.symm) hMr
          · exact hlt
        have hgb' : g < b := by
          have h1 : g ≤ b := by
            have h2 : max g b ≤ max r (max g b) := le_max_right _ _
            rw [hMb] at h2
            exact le_trans (le_max_left _ _) h2
          rcases eq_or_lt_of_le h1 with he | hlt
          · exact absurd (hMb.trans he.symm) hMg
          · exact hlt
        by_cases hrg : r < g
        · -- r < g < b: sector 3
          have hm0 : min r (min g b) = r := by
            rw [min_eq_left (le_of_lt hgb')]
            exact min_eq_left (le_of_lt hrg)
          rw [hMb, hm0]
          have hdbr : 0 < b - r := by rw [hMb, hm0] at hd; exact hd
          have hh6 : hslH r g b * 6 = (r - g) / (b - r) + 4 := by
            unfold hslH
            dsimp only
            rw [if_neg hMr, if_neg hMg, hMb, hm0, div_mul_cancel₀ _ h6ne]
          have hq1 : -1 < (r - g) / (b - r) := by
            rw [lt_div_iff₀ hdbr]
            linarith
          have hq2 : (r - g) / (b - r) < 0 :=
            div_neg_of_neg_of_pos (by linarith) hdbr
          have hfloor : ⌊(r - g) / (b - r) + 4⌋ = 3 :=
            floor_eval _ 3 (by push_cast; linarith) (by push_cast; linarith)
          have hfmod : jsFmod ((r - g) / (b - r) + 4) 2 =
              (r - g) / (b - r) + 2 := by
            rw [jsFmod_eval _ 1 (by push_cast; linarith)
              (by push_cast; linarith)]
            push_cast
            ring
          have habs : |(r - g) / (b - r) + 2 - 1| =
              (r - g) / (b - r) + 1 := by
            rw [show (r - g) / (b - r) + 2 - 1 = (r - g) / (b - r) + 1
              by ring]
            exact abs_of_nonneg (by linarith)
          rw [hh6, hfloor, hfmod, habs]
          have h1 : (1 : ℝ) - ((r - g) / (b - r) + 1) =
              (g - r) / (b - r) := by ring
          rw [h1, mul_comm, div_mul_cancel₀ _ (ne_of_gt hdbr)]
          simp [sectorRGB]
        · -- g ≤ r < b: sector 4
          have hgr : g ≤ r := not_lt.mp hrg
          have hm0 : min r (min g b) = g := by
            rw [min_eq_left (le_of_lt hgb')]
            exact min_eq_right hgr
          rw [hMb, hm0]
          have hdbg : 0 < b - g := by rw [hMb, hm0] at hd; exact hd
          have hh6 : hslH r g b * 6 = (r - g) / (b - g) + 4 := by
            unfold hslH
            dsimp only
            rw [if_neg hMr, if_neg hMg, hMb, hm0, div_mul_cancel₀ _ h6ne]
          have hq0 : 0 ≤ (r - g) / (b - g) :=
            div_nonneg (by linarith) (by linarith)
          have hq1 : (r - g) / (b - g) < 1 := by
            rw [div_lt_one hdbg]
            linarith
          have hfloor : ⌊(r - g) / (b - g) + 4⌋ = 4 :=
            floor_eval _ 4 (by push_cast; linarith) (by push_cast; linarith)
          have hfmod : jsFmod ((r - g) / (b - g) + 4) 2 =
              (r - g) / (b - g) := by
            rw [jsFmod_eval _ 2 (by push_cast; linarith)
              (by push_cast; linarith)]
            push_cast
            ring
          have habs : |(r - g) / (b - g) - 1| = 1 - (r - g) / (b - g) := by
            rw [abs_of_nonpos (by linarith)]
            ring
          rw [hh6, hfloor, hfmod, habs]
          have h1 : (1 : ℝ) - (1 - (r - g) / (b - g)) =
              (r - g) / (b - g) := by ring
          rw [h1, mul_comm, div_mul_cancel₀ _ (ne_of_gt hdbg)]
          simp [sectorRGB]
  unfold saturatePixel
  dsimp only
  rw [hc, hm, hsector]
  simp

/-- Claim C9: the saturation adjuster with `saturation = 0` (factor 1)
returns the image unchanged (exactly, in the real-valued model — "within
per-channel rounding" in the 8-bit source), and for every saturation value
every achromatic pixel (R = G = B) is exactly unchanged in all channels. -/
theorem applyAdvancedSaturation_spec (img : Image) (sat : ℝ)
    (hdata : ∀ idx < img.width * img.height * 4,
      0 ≤ img.data idx ∧ img.data idx ≤ 255) :
    (∀ idx, (applyAdvancedSaturation img 0).data idx = img.data idx) ∧
    (∀ p c, c < 4 →
      img.data (4 * p) = img.data (4 * p + 1) →
      img.data (4 * p + 1) = img.data (4 * p + 2) →
      (applyAdvancedSaturation img sat).data (4 * p + c) =
        img.data (4 * p + c)) := by
  constructor
  · intro idx
    unfold applyAdvancedSaturation
    dsimp only
    by_cases hcond : idx < img.width * img.height * 4 ∧ idx % 4 < 3
    · rw [if_pos hcond]
      by_cases hgray : max (img.data (4 * (idx / 4)) / 255)
          (max (img.data (4 * (idx / 4) + 1) / 255)
            (img.data (4 * (idx / 4) + 2) / 255)) -
          min (img.data (4 * (idx / 4)) / 255)
            (min (img.data (4 * (idx / 4) + 1) / 255)
              (img.data (4 * (idx / 4) + 2) / 255)) = 0
      · rw [if_pos hgray]
      · rw [if_neg hgray]
        have hlt0 : 4 * (idx / 4) < img.width * img.height * 4 := by omega
        have hlt1 : 4 * (idx / 4) + 1 < img.width * img.height * 4 := by
          omega
        have hlt2 : 4 * (idx / 4) + 2 < img.width * img.height * 4 := by
          omega
        obtain ⟨hr0, hr1⟩ := hdata _ hlt0
        obtain ⟨hg0, hg1⟩ := hdata _ hlt1
        obtain ⟨hb0, hb1⟩ := hdata _ hlt2
        rw [show ((0 : ℝ) + 100) / 100 = 1 by norm_num]
        rw [saturatePixel_roundtrip _ _ _
          (div_nonneg hr0 (by norm_num))
          ((div_le_one (by norm_num)).mpr hr1)
          (div_nonneg hg0 (by norm_num))
          ((div_le_one (by norm_num)).mpr hg1)
          (div_nonneg hb0 (by norm_num))
          ((div_le_one (by norm_num)).mpr hb1) hgray]
        have h3 : idx % 4 = 0 ∨ idx % 4 = 1 ∨ idx % 4 = 2 := by omega
        obtain ⟨hi0, hi1⟩ := hdata idx hcond.1
        rcases h3 with h | h | h
        · rw [h]
          have hidx : 4 * (idx / 4) = idx := by omega
          rw [hidx]
          norm_num
          rw [max_eq_right hi0, min_eq_right hi1]
        · rw [h]
          have hidx : 4 * (idx / 4) + 1 = idx := by omega
          rw [hidx]
          norm_num
          rw [max_eq_right hi0, min_eq_right hi1]
        · rw [h]
          have hidx : 4 * (idx / 4) + 2 = idx := by omega
          rw [hidx]
          norm_num
          rw [max_eq_right hi0, min_eq_right hi1]
    · rw [if_neg hcond]
  · intro p c hc h01 h12
    rcases Nat.lt_or_ge c 3 with hc3 | hc3
    · unfold applyAdvancedSaturation
      dsimp only
      by_cases hcond : 4 * p + c < img.width * img.height * 4 ∧
          (4 * p + c) % 4 < 3
      · rw [if_pos hcond]
        have hp4 : (4 * p + c) / 4 = p := by omega
        rw [hp4]
        rw [if_pos (by rw [h01, h12]; simp)]
      · rw [if_neg hcond]
    · have hc3' : c = 3 := by omega
      subst hc3'
      exact applyAdvancedSaturation_alpha img sat (4 * p + 3) (by omega)

/-- Witness for C9: a 2×2 uniform gray image (every pixel achromatic),
saturation 25. -/
theorem applyAdvancedSaturation_spec_witness :
    (∀ idx < (grayImage 2 2).width * (grayImage 2 2).height * 4,
      0 ≤ (grayImage 2 2).data idx ∧ (grayImage 2 2).data idx ≤ 255) ∧
    (∀ idx, (applyAdvancedSaturation (grayImage 2 2) 0).data idx =
      (grayImage 2 2).data idx) := by
  have hd : ∀ idx < (grayImage 2 2).width * (grayImage 2 2).height * 4,
      0 ≤ (grayImage 2 2).data idx ∧ (grayImage 2 2).data idx ≤ 255 := by
    intro idx _
    show 0 ≤ (if idx % 4 = 3 then (255 : ℝ) else 128) ∧
      (if idx % 4 = 3 then (255 : ℝ) else 128) ≤ 255
    split <;> norm_num
  exact ⟨hd, (applyAdvancedSaturation_spec (grayImage 2 2) 25 hd).1⟩

end ImageProcessor
